import Mathlib

/-!
# Verification of `IlmBase/IlmThread/IlmThreadMutex.h`

Shallow embedding of the `Mutex` / `Lock` class pair of
`src/IlmBase/IlmThread/IlmThreadMutex.h` and proofs about it.

The header defines
* `Mutex` — a wrapper around the platform mutual-exclusion primitive
  (`std::mutex`, or `pthread_mutex_t` / `CRITICAL_SECTION` under
  `ILMBASE_FORCE_CXX03`), exposing `lock ()` and `unlock ()`;
* `Lock` — a scope guard holding a reference to a `Mutex` and a Boolean
  field `_locked`; its constructor optionally locks the mutex, its
  destructor unlocks it when `_locked` is true, and it offers
  `acquire ()`, `release ()` and `locked ()`.

The embedding models the mutex as its abstract lock state (`locked`),
instrumented with ghost call counters (`lockCalls`, `unlockCalls`) so that
"calls the lock operation", "unlocks exactly once" and "performs no
operation" become statable as arithmetic facts.  Member functions that
mutate state become functions on explicit `Mutex × Lock` state.  A second,
concurrent small-step model (namespace `Conc`) interprets the same guard
discipline for `n` threads incrementing a shared counter, to settle the
mutual-exclusion claim.
-/

namespace IlmThread

/-- Abstract state of the platform mutual-exclusion object wrapped by class
`Mutex`.  `locked` is the exclusion state; `lockCalls` and `unlockCalls`
are ghost counters of how many times `lock ()` / `unlock ()` have been
invoked, used to state "exactly once" and "no operation". -/
structure Mutex where
  locked : Bool
  lockCalls : Nat
  unlockCalls : Nat
deriving DecidableEq, Repr

/-- `Mutex::lock ()`: blocks until exclusive access is obtained; afterwards
the mutex is held.  In this sequential model the blocking wait has
completed when the function returns. -/
def Mutex.lock (m : Mutex) : Mutex :=
  { m with locked := true, lockCalls := m.lockCalls + 1 }

/-- `Mutex::unlock ()`: releases exclusive access. -/
def Mutex.unlock (m : Mutex) : Mutex :=
  { m with locked := false, unlockCalls := m.unlockCalls + 1 }

/-- The data members of class `Lock` other than the mutex reference: the
Boolean `_locked` flag.  The referenced mutex travels alongside as the
first component of a `Mutex × Lock` state. -/
structure Lock where
  _locked : Bool
deriving DecidableEq, Repr

/-- `Lock::Lock (const Mutex &m, bool autoLock = true)`: initialises
`_locked (false)`; then, if `autoLock`, runs `_mutex.lock (); _locked =
true;`.  Returns the mutex state after construction together with the
constructed guard. -/
def lockCtor (m : Mutex) (autoLock : Bool := true) : Mutex × Lock :=
  if autoLock then
    (Mutex.lock m, { _locked := true })
  else
    (m, { _locked := false })

/-- `Lock::~Lock ()`: `if (_locked) _mutex.unlock ();`.  Returns the mutex
state after destruction. -/
def lockDtor (m : Mutex) (l : Lock) : Mutex :=
  if l._locked then Mutex.unlock m else m

/-- `Lock::acquire ()`: `_mutex.lock (); _locked = true;`. -/
def Lock.acquire (s : Mutex × Lock) : Mutex × Lock :=
  (Mutex.lock s.1, { s.2 with _locked := true })

/-- `Lock::release ()`: `_mutex.unlock (); _locked = false;`. -/
def Lock.release (s : Mutex × Lock) : Mutex × Lock :=
  (Mutex.unlock s.1, { s.2 with _locked := false })

/-- `Lock::locked ()`: `return _locked;`. -/
def Lock.locked (l : Lock) : Bool :=
  l._locked

/-- `locked ()` as an operation on the full state, making its frame
explicit: it returns the `_locked` flag and the unchanged state. -/
def lockedQuery (s : Mutex × Lock) : Bool × (Mutex × Lock) :=
  (s.2._locked, s)

/-- A C++ scope `{ Lock lock (m); body }` where `body` may end normally
(`Except.ok`) or by a thrown exception (`Except.error`).  In either case
the language runs the guard's destructor when control leaves the scope;
the exception, if any, continues to propagate. -/
def runScope (α : Type) (m : Mutex) (autoLock : Bool)
    (body : Mutex × Lock → Except Unit α × (Mutex × Lock)) :
    Except Unit α × Mutex :=
  match body (lockCtor m autoLock) with
  | (Except.ok a, (m1, l1)) => (Except.ok a, lockDtor m1 l1)
  | (Except.error e, (m1, l1)) => (Except.error e, lockDtor m1 l1)

/-- The auto-locking constructor body under a platform lock operation that
may exit by exception (`std::mutex::lock` may throw): `none` models a
thrown exception reaching `_mutex.lock ()`, in which case the assignment
`_locked = true` — which in the source comes only after the `lock` call —
never executes.  The second component is the state at the point control
leaves the constructor (the mutex, and the guard fields as last written). -/
def lockCtorE (lockOp : Mutex → Option Mutex) (m : Mutex) (autoLock : Bool) :
    Option (Mutex × Lock) × (Mutex × Lock) :=
  let l0 : Lock := { _locked := false }
  if autoLock then
    match lockOp m with
    | some m1 => ((some (m1, { _locked := true })), (m1, { _locked := true }))
    | none => (none, (m, l0))
  else
    (some (m, l0), (m, l0))

/-- `Lock::acquire ()` under a platform lock operation that may exit by
exception: `_mutex.lock ()` runs first; `_locked = true` executes only if
it returned.  `none` in the first component means the exception
propagates; the second component is the state when control leaves. -/
def acquireE (lockOp : Mutex → Option Mutex) (s : Mutex × Lock) :
    Option (Mutex × Lock) × (Mutex × Lock) :=
  match lockOp s.1 with
  | some m1 => (some (m1, { s.2 with _locked := true }),
                (m1, { s.2 with _locked := true }))
  | none => (none, s)

/-- The two explicit mutating member functions a caller can invoke on a
live guard. -/
inductive GuardOp where
  | acquireOp
  | releaseOp
deriving DecidableEq, Repr

/-- Run one guard member function on the state. -/
def applyOp (s : Mutex × Lock) : GuardOp → Mutex × Lock
  | GuardOp.acquireOp => Lock.acquire s
  | GuardOp.releaseOp => Lock.release s

/-- Run a sequence of guard member functions. -/
def runOps (s : Mutex × Lock) (ops : List GuardOp) : Mutex × Lock :=
  ops.foldl applyOp s

/-- The caller contract of the header's documentation: never `acquire ()`
while already held (non-reentrant deadlock), never `release ()` while not
held (unlocking an unlocked mutex). -/
def legalOps : Mutex × Lock → List GuardOp → Bool
  | _, [] => true
  | s, op :: rest =>
    (match op with
     | GuardOp.acquireOp => !s.2._locked
     | GuardOp.releaseOp => s.2._locked) && legalOps (applyOp s op) rest

/-- The guard's ownership invariant in the single-guard model: the
`_locked` flag agrees with the mutex's exclusion state. -/
def heldOwns (s : Mutex × Lock) : Prop :=
  s.2._locked = s.1.locked

instance (s : Mutex × Lock) : Decidable (heldOwns s) := by
  unfold heldOwns; infer_instance

/-- A freshly constructed, unlocked mutex with zeroed ghost counters, used
to instantiate the theorems below on concrete inputs. -/
def mkMutex : Mutex :=
  { locked := false, lockCalls := 0, unlockCalls := 0 }

/-- A scope body that exits by throwing, leaving the state as it found
it. -/
def throwingBody : Mutex × Lock → Except Unit Nat × (Mutex × Lock) :=
  fun s => (Except.error (), s)

/-- A platform lock operation that always exits by exception. -/
def failingLockOp : Mutex → Option Mutex :=
  fun _ => none

/-- A concrete legal sequence of guard member calls for a guard that was
constructed with auto-lock: release, then re-acquire. -/
def opsW : List GuardOp :=
  [GuardOp.releaseOp, GuardOp.acquireOp]

namespace Conc

/-!
Small-step interleaving model of the spec's mutual-exclusion scenario: `n`
threads each run `for (iters times) { Lock lock (mtx); counter += 1; }`
against one shared `Mutex`.  The blocking `lock ()` of the guard's
constructor is the `start` step (enabled only when the mutex is free —
a scheduled thread whose acquire is still blocked makes no progress); the
destructor's `unlock ()` is the `inRel` step.  The increment is split into
its machine-level read and write so that a lost update is expressible. -/

/-- Position of a thread inside one iteration of its loop body. -/
inductive Phase where
  | start
  | inRead
  | inWrite
  | inRel
deriving DecidableEq, Repr

/-- One thread: remaining iterations, current phase, and the register
holding the value read from the shared counter. -/
structure ThreadState where
  rem : Nat
  phase : Phase
  reg : Nat
deriving DecidableEq, Repr

/-- Global state: which thread (if any) holds the mutex, the shared
counter, and every thread's local state. -/
structure GState (n : Nat) where
  mutexOwner : Option (Fin n)
  counter : Nat
  threads : Fin n → ThreadState

/-- One scheduled step of thread `i`.  At `start`, the thread constructs
`Lock lock (mtx)`: it proceeds only if it still has iterations to do and
the mutex is free (otherwise the blocking `lock ()` has not returned and
the step is a stutter).  `inRead` / `inWrite` perform `counter += 1` as a
read then a write of the register plus one.  `inRel` is the guard's
destructor running at scope end: it unlocks and the iteration completes. -/
def stepThread {n : Nat} (s : GState n) (i : Fin n) : GState n :=
  let t := s.threads i
  match t.phase with
  | Phase.start =>
    if t.rem = 0 then s
    else
      match s.mutexOwner with
      | some _ => s
      | none =>
        { s with mutexOwner := some i,
                 threads := Function.update s.threads i { t with phase := Phase.inRead } }
  | Phase.inRead =>
    { s with threads := Function.update s.threads i
               { t with phase := Phase.inWrite, reg := s.counter } }
  | Phase.inWrite =>
    { s with counter := t.reg + 1,
             threads := Function.update s.threads i { t with phase := Phase.inRel } }
  | Phase.inRel =>
    { s with mutexOwner := none,
             threads := Function.update s.threads i
               { t with phase := Phase.start, rem := t.rem - 1 } }

/-- Run the threads under an arbitrary schedule (the list of thread ids in
the order the scheduler lets them step).  Quantifying over all schedules
quantifies over all interleavings. -/
def run {n : Nat} (sched : List (Fin n)) (s : GState n) : GState n :=
  sched.foldl stepThread s

/-- The initial state: mutex free, counter zero, every thread at the top
of its loop with `iters` iterations to go. -/
def initState (n iters : Nat) : GState n :=
  { mutexOwner := none, counter := 0,
    threads := fun _ => { rem := iters, phase := Phase.start, reg := 0 } }

/-- A thread is finished when it is back at the top of its loop with no
iterations left. -/
def ThreadState.done (t : ThreadState) : Bool :=
  match t.phase, t.rem with
  | Phase.start, 0 => true
  | _, _ => false

/-- Every thread has finished its loop. -/
def allDone {n : Nat} (s : GState n) : Bool :=
  (List.finRange n).all fun i => (s.threads i).done

/-- A thread in any of these phases is inside the guard's critical
section (its constructor's `lock ()` has returned and its destructor's
`unlock ()` has not yet run). -/
def Phase.holding : Phase → Bool
  | Phase.start => false
  | _ => true

/-- Iterations a thread still has to account for, counting the one whose
increment has already been written (phase `inRel`) as finished. -/
def remEff (t : ThreadState) : Nat :=
  t.rem - (if t.phase = Phase.inRel then 1 else 0)

/-- The inductive invariant: (a) a thread inside the critical section is
the mutex owner; (b) a thread about to write has an up-to-date register;
(c) a thread inside the critical section has an iteration outstanding;
(d) the counter plus all outstanding work equals the total work. -/
def Inv (n iters : Nat) (s : GState n) : Prop :=
  (∀ i : Fin n, (s.threads i).phase.holding = true → s.mutexOwner = some i) ∧
  (∀ i : Fin n, (s.threads i).phase = Phase.inWrite → (s.threads i).reg = s.counter) ∧
  (∀ i : Fin n, (s.threads i).phase.holding = true → 1 ≤ (s.threads i).rem) ∧
  s.counter + ∑ i : Fin n, remEff (s.threads i) = n * iters

/-- A concrete schedule for two threads with one iteration each: thread 0
runs a whole iteration, then thread 1 does. -/
def sched2 : List (Fin 2) :=
  [0, 0, 0, 0, 1, 1, 1, 1]

lemma sum_remEff_update {n : Nat} (f : Fin n → ThreadState) (i : Fin n)
    (b : ThreadState) :
    (∑ j : Fin n, remEff (Function.update f i b j)) + remEff (f i) =
    (∑ j : Fin n, remEff (f j)) + remEff b := by
  have h1 : (∑ j : Fin n, remEff (Function.update f i b j)) =
      ∑ j : Fin n, Function.update (fun k => remEff (f k)) i (remEff b) j := by
    refine Finset.sum_congr rfl fun j _ => ?_
    by_cases h : j = i
    · subst h; simp [Function.update]
    · simp [Function.update, h]
  have h2 : (∑ j : Fin n, remEff (f j)) =
      (∑ j in Finset.univ.erase i, remEff (f j)) + remEff (f i) :=
    (Finset.sum_erase_add Finset.univ (fun k => remEff (f k))
      (Finset.mem_univ i)).symm
  rw [h1, Finset.sum_update_of_mem (Finset.mem_univ i), h2,
    ← Finset.erase_eq]
  omega

lemma done_iff (t : ThreadState) :
    t.done = true ↔ t.phase = Phase.start ∧ t.rem = 0 := by
  obtain ⟨rem, phase, reg⟩ := t
  cases phase <;> cases rem <;> simp [ThreadState.done]

lemma Inv.init (n iters : Nat) : Inv n iters (initState n iters) := by
  refine ⟨?_, ?_, ?_, ?_⟩
  · intro i h; simp [initState, Phase.holding] at h
  · intro i h; simp [initState] at h
  · intro i h; simp [initState, Phase.holding] at h
  · simp [initState, remEff, Finset.sum_const, Finset.card_univ]

lemma stepThread_stutter_done {n : Nat} (s : GState n) (i : Fin n)
    (h1 : (s.threads i).phase = Phase.start) (h2 : (s.threads i).rem = 0) :
    stepThread s i = s := by
  simp [stepThread, h1, h2]

lemma stepThread_stutter_blocked {n : Nat} (s : GState n) (i k : Fin n)
    (h1 : (s.threads i).phase = Phase.start) (h2 : s.mutexOwner = some k) :
    stepThread s i = s := by
  by_cases h0 : (s.threads i).rem = 0 <;> simp [stepThread, h1, h2, h0]

lemma stepThread_acquire {n : Nat} (s : GState n) (i : Fin n)
    (h1 : (s.threads i).phase = Phase.start) (h2 : (s.threads i).rem ≠ 0)
    (h3 : s.mutexOwner = none) :
    stepThread s i =
      { s with mutexOwner := some i,
               threads := Function.update s.threads i
                 { rem := (s.threads i).rem, phase := Phase.inRead,
                   reg := (s.threads i).reg } } := by
  simp [stepThread, h1, h2, h3]

lemma stepThread_read {n : Nat} (s : GState n) (i : Fin n)
    (h1 : (s.threads i).phase = Phase.inRead) :
    stepThread s i =
      { s with threads := Function.update s.threads i
                 { rem := (s.threads i).rem, phase := Phase.inWrite,
                   reg := s.counter } } := by
  simp [stepThread, h1]

lemma stepThread_write {n : Nat} (s : GState n) (i : Fin n)
    (h1 : (s.threads i).phase = Phase.inWrite) :
    stepThread s i =
      { s with counter := (s.threads i).reg + 1,
               threads := Function.update s.threads i
                 { rem := (s.threads i).rem, phase := Phase.inRel,
                   reg := (s.threads i).reg } } := by
  simp [stepThread, h1]

lemma stepThread_unlock {n : Nat} (s : GState n) (i : Fin n)
    (h1 : (s.threads i).phase = Phase.inRel) :
    stepThread s i =
      { s with mutexOwner := none,
               threads := Function.update s.threads i
                 { rem := (s.threads i).rem - 1, phase := Phase.start,
                   reg := (s.threads i).reg } } := by
  simp [stepThread, h1]

lemma Inv.step {n iters : Nat} {s : GState n} (h : Inv n iters s)
    (i : Fin n) : Inv n iters (stepThread s i) := by
  obtain ⟨ha, hb, hc, hd⟩ := h
  cases hph : (s.threads i).phase with
  | start =>
    by_cases hrem : (s.threads i).rem = 0
    · rw [stepThread_stutter_done s i hph hrem]
      exact ⟨ha, hb, hc, hd⟩
    · cases how : s.mutexOwner with
      | some k =>
        rw [stepThread_stutter_blocked s i k hph how]
        exact ⟨ha, hb, hc, hd⟩
      | none =>
        rw [stepThread_acquire s i hph hrem how]
        have hupd := sum_remEff_update s.threads i
          ⟨(s.threads i).rem, Phase.inRead, (s.threads i).reg⟩
        refine ⟨?_, ?_, ?_, ?_⟩
        · intro j hj
          by_cases hji : j = i
          · simp [hji]
          · simp only [Function.update_apply, if_neg hji] at hj
            have := ha j hj
            rw [how] at this
            exact absurd this (by simp)
        · intro j hj
          by_cases hji : j = i
          · simp [Function.update_apply, hji] at hj
          · simp only [Function.update_apply, if_neg hji] at hj ⊢
            exact hb j hj
        · intro j hj
          by_cases hji : j = i
          · simp only [Function.update_apply, hji, if_pos] at hj ⊢
            omega
          · simp only [Function.update_apply, if_neg hji] at hj ⊢
            exact hc j hj
        · have heqb : remEff ⟨(s.threads i).rem, Phase.inRead, (s.threads i).reg⟩ = (s.threads i).rem := by
            simp [remEff]
          have heqt : remEff (s.threads i) = (s.threads i).rem := by
            simp [remEff, hph]
          simp only [GState.counter, GState.threads]
          omega
  | inRead =>
    have hown := ha i (by rw [hph]; rfl)
    rw [stepThread_read s i hph]
    have hupd := sum_remEff_update s.threads i
      ⟨(s.threads i).rem, Phase.inWrite, s.counter⟩
    refine ⟨?_, ?_, ?_, ?_⟩
    · intro j hj
      by_cases hji : j = i
      · rw [hji]; exact hown
      · simp only [Function.update_apply, if_neg hji] at hj
        exact ha j hj
    · intro j hj
      by_cases hji : j = i
      · simp [Function.update_apply, hji]
      · simp only [Function.update_apply, if_neg hji] at hj ⊢
        exact hb j hj
    · intro j hj
      by_cases hji : j = i
      · have := hc i (by rw [hph]; rfl)
        simp only [Function.update_apply, hji, if_pos] at hj ⊢
        omega
      · simp only [Function.update_apply, if_neg hji] at hj ⊢
        exact hc j hj
    · have heqb : remEff ⟨(s.threads i).rem, Phase.inWrite, s.counter⟩ = (s.threads i).rem := by
        simp [remEff]
      have heqt : remEff (s.threads i) = (s.threads i).rem := by
        simp [remEff, hph]
      simp only [GState.counter, GState.threads]
      omega
  | inWrite =>
    have hown := ha i (by rw [hph]; rfl)
    have hreg := hb i hph
    have hrem1 := hc i (by rw [hph]; rfl)
    rw [stepThread_write s i hph]
    have hupd := sum_remEff_update s.threads i
      ⟨(s.threads i).rem, Phase.inRel, (s.threads i).reg⟩
    refine ⟨?_, ?_, ?_, ?_⟩
    · intro j hj
      by_cases hji : j = i
      · rw [hji]; exact hown
      · simp only [Function.update_apply, if_neg hji] at hj
        exact ha j hj
    · intro j hj
      by_cases hji : j = i
      · simp [Function.update_apply, hji] at hj
      · simp only [Function.update_apply, if_neg hji] at hj
        have := ha j (by rw [hj]; rfl)
        rw [hown] at this
        exact absurd (Option.some.inj this).symm hji
    · intro j hj
      by_cases hji : j = i
      · simp only [Function.update_apply, hji, if_pos] at hj ⊢
        omega
      · simp only [Function.update_apply, if_neg hji] at hj ⊢
        exact hc j hj
    · have heqb : remEff ⟨(s.threads i).rem, Phase.inRel, (s.threads i).reg⟩ = (s.threads i).rem - 1 := by
        simp [remEff]
      have heqt : remEff (s.threads i) = (s.threads i).rem := by
        simp [remEff, hph]
      simp only [GState.counter, GState.threads]
      omega
  | inRel =>
    have hown := ha i (by rw [hph]; rfl)
    have hrem1 := hc i (by rw [hph]; rfl)
    rw [stepThread_unlock s i hph]
    have hupd := sum_remEff_update s.threads i
      ⟨(s.threads i).rem - 1, Phase.start, (s.threads i).reg⟩
    refine ⟨?_, ?_, ?_, ?_⟩
    · intro j hj
      by_cases hji : j = i
      · simp [Function.update_apply, hji, Phase.holding] at hj
      · simp only [Function.update_apply, if_neg hji] at hj
        have := ha j hj
        rw [hown] at this
        exact absurd (Option.some.inj this).symm hji
    · intro j hj
      by_cases hji : j = i
      · simp [Function.update_apply, hji] at hj
      · simp only [Function.update_apply, if_neg hji] at hj ⊢
        exact hb j hj
    · intro j hj
      by_cases hji : j = i
      · simp [Function.update_apply, hji, Phase.holding] at hj
      · simp only [Function.update_apply, if_neg hji] at hj ⊢
        exact hc j hj
    · have heqb : remEff ⟨(s.threads i).rem - 1, Phase.start, (s.threads i).reg⟩ = (s.threads i).rem - 1 := by
        simp [remEff]
      have heqt : remEff (s.threads i) = (s.threads i).rem - 1 := by
        simp [remEff, hph]
      simp only [GState.counter, GState.threads]
      omega

lemma Inv.runPreserved {n iters : Nat} (sched : List (Fin n)) {s : GState n}
    (h : Inv n iters s) : Inv n iters (run sched s) := by
  induction sched generalizing s with
  | nil => exact h
  | cons i rest ih => exact ih (h.step i)

lemma counter_of_allDone {n iters : Nat} {s : GState n} (h : Inv n iters s)
    (hall : allDone s = true) : s.counter = n * iters := by
  obtain ⟨-, -, -, hsum⟩ := h
  have hz : ∀ i : Fin n, remEff (s.threads i) = 0 := by
    intro i
    have hm := (List.all_eq_true.mp hall) i (List.mem_finRange i)
    have := (done_iff (s.threads i)).mp hm
    simp [remEff, this.2]
  rw [Finset.sum_eq_zero fun i _ => hz i] at hsum
  simpa using hsum

end Conc

lemma heldOwns_applyOp (s : Mutex × Lock) (op : GuardOp) :
    heldOwns (applyOp s op) := by
  cases op <;>
    simp [applyOp, Lock.acquire, Lock.release, Mutex.lock, Mutex.unlock,
      heldOwns]

lemma heldOwns_runOps (s : Mutex × Lock) (ops : List GuardOp)
    (h : heldOwns s) : heldOwns (runOps s ops) := by
  induction ops generalizing s with
  | nil => exact h
  | cons op rest ih => exact ih (applyOp s op) (heldOwns_applyOp s op)

/-- C1: Destroying a `Lock` calls the mutex's `unlock` operation exactly
once when `_locked` is true (one new `unlock` call, mutex left unlocked)
and performs no operation when `_locked` is false; and for a scope
`{ Lock lock (m); body }`, whatever the body does — finish normally or
unwind on a thrown error — the final mutex is exactly the destructor
applied to the state at scope exit, so a held lock is released on every
control path. -/
theorem lock_dtor_releases_on_every_path (m : Mutex) (l : Lock) (α : Type)
    (body : Mutex × Lock → Except Unit α × (Mutex × Lock)) :
    (l._locked = true →
      lockDtor m l = Mutex.unlock m ∧
      (lockDtor m l).unlockCalls = m.unlockCalls + 1 ∧
      (lockDtor m l).locked = false) ∧
    (l._locked = false → lockDtor m l = m) ∧
    (runScope α m true body).2 =
      lockDtor (body (lockCtor m true)).2.1 (body (lockCtor m true)).2.2 := by
  refine ⟨?_, ?_, ?_⟩
  · intro h; simp [lockDtor, h, Mutex.unlock]
  · intro h; simp [lockDtor, h]
  · rcases hb : body (lockCtor m true) with ⟨a | e, m1, l1⟩ <;>
      simp [runScope, hb]

theorem lock_dtor_releases_on_every_path_witness :
    lockDtor mkMutex { _locked := true } = Mutex.unlock mkMutex ∧
    (runScope Nat mkMutex true throwingBody).2 =
      lockDtor (throwingBody (lockCtor mkMutex true)).2.1
        (throwingBody (lockCtor mkMutex true)).2.2 :=
  ⟨((lock_dtor_releases_on_every_path mkMutex { _locked := true } Nat
      throwingBody).1 rfl).1,
   (lock_dtor_releases_on_every_path mkMutex { _locked := true } Nat
      throwingBody).2.2⟩

/-- C2: Constructing a `Lock` on mutex `m` with `autoLock = true` (the
default) calls `m`'s lock operation during construction (one new `lock`
call) and sets the held flag: `locked ()` is true immediately after
construction and the mutex is held, unavailable to any other acquirer. -/
theorem lock_ctor_autolock (m : Mutex) :
    Lock.locked (lockCtor m true).2 = true ∧
    (lockCtor m true).1.locked = true ∧
    (lockCtor m true).1.lockCalls = m.lockCalls + 1 ∧
    lockCtor m = lockCtor m true :=
  ⟨rfl, rfl, rfl, rfl⟩

/-- C3: Constructing a `Lock` on mutex `m` with `autoLock = false`
performs no operation on the mutex — `locked ()` is false immediately
after construction and the mutex state is unchanged — until `acquire ()`
is explicitly called, which locks the mutex and sets the flag. -/
theorem lock_ctor_deferred (m : Mutex) :
    Lock.locked (lockCtor m false).2 = false ∧
    (lockCtor m false).1 = m ∧
    Lock.locked (Lock.acquire (lockCtor m false)).2 = true ∧
    (Lock.acquire (lockCtor m false)).1.locked = true :=
  ⟨rfl, rfl, rfl, rfl⟩

/-- C4: Under the caller contract (no double-acquire, no release while
unheld), starting from an unlocked mutex: the guard starts held exactly
when auto-lock was requested; the held flag equals mutex ownership
initially and after every legal sequence of operations; `acquire` moves
to Held and `release` to Unheld; and destruction from either state leaves
the mutex unlocked (unlocking when held, a no-op — the mutex was already
free — when unheld). -/
theorem guard_state_machine (m : Mutex) (auto : Bool) (ops : List GuardOp)
    (hm : m.locked = false)
    (hleg : legalOps (lockCtor m auto) ops = true) :
    Lock.locked (lockCtor m auto).2 = auto ∧
    heldOwns (lockCtor m auto) ∧
    heldOwns (runOps (lockCtor m auto) ops) ∧
    Lock.locked (applyOp (runOps (lockCtor m auto) ops) GuardOp.acquireOp).2
      = true ∧
    Lock.locked (applyOp (runOps (lockCtor m auto) ops) GuardOp.releaseOp).2
      = false ∧
    (lockDtor (runOps (lockCtor m auto) ops).1
      (runOps (lockCtor m auto) ops).2).locked = false := by
  have h0 : heldOwns (lockCtor m auto) := by
    cases auto <;> simp [lockCtor, heldOwns, Mutex.lock, hm]
  have hrun := heldOwns_runOps (lockCtor m auto) ops h0
  refine ⟨by cases auto <;> rfl, h0, hrun, rfl, rfl, ?_⟩
  unfold heldOwns at hrun
  by_cases hl : (runOps (lockCtor m auto) ops).2._locked
  · simp [lockDtor, hl, Mutex.unlock]
  · simp only [lockDtor, hl, if_neg, Bool.false_eq_true, ite_false]
    rw [← hrun]
    simpa using hl

theorem guard_state_machine_witness :
    mkMutex.locked = false ∧
    legalOps (lockCtor mkMutex true) opsW = true ∧
    heldOwns (runOps (lockCtor mkMutex true) opsW) ∧
    (lockDtor (runOps (lockCtor mkMutex true) opsW).1
      (runOps (lockCtor mkMutex true) opsW).2).locked = false :=
  ⟨rfl, by decide,
   (guard_state_machine mkMutex true opsW rfl (by decide)).2.2.1,
   (guard_state_machine mkMutex true opsW rfl (by decide)).2.2.2.2.2⟩

/-- C5: After `release ()`, `locked ()` returns false; a subsequent
`acquire ()` succeeds, calling the mutex's lock operation (one new `lock`
call) and setting the held flag back to true, with the mutex held again —
no stuck state. -/
theorem release_then_acquire (s : Mutex × Lock) :
    Lock.locked (Lock.release s).2 = false ∧
    Lock.locked (Lock.acquire (Lock.release s)).2 = true ∧
    (Lock.acquire (Lock.release s)).1.lockCalls = s.1.lockCalls + 1 ∧
    (Lock.acquire (Lock.release s)).1.locked = true :=
  ⟨rfl, rfl, rfl, rfl⟩

/-- C6: `release ()` calls the mutex's unlock operation and clears the
held flag unconditionally — the result does not depend on the prior held
flag, and a `release` while unheld (or a double `acquire`) still performs
the underlying operation: nothing checks the flag and no error value is
produced (the operations are total). -/
theorem release_acquire_unconditional (s : Mutex × Lock) :
    Lock.release s = (Mutex.unlock s.1, { _locked := false }) ∧
    Lock.acquire s = (Mutex.lock s.1, { _locked := true }) ∧
    (Lock.release s).1.unlockCalls = s.1.unlockCalls + 1 ∧
    (Lock.acquire s).1.lockCalls = s.1.lockCalls + 1 :=
  ⟨rfl, rfl, rfl, rfl⟩

/-- C7: `locked ()` returns exactly the current `_locked` flag and has no
side effect: the guard and the referenced mutex are left unchanged. -/
theorem locked_pure_query (s : Mutex × Lock) :
    (lockedQuery s).1 = s.2._locked ∧
    (lockedQuery s).2 = s ∧
    Lock.locked s.2 = s.2._locked :=
  ⟨rfl, rfl, rfl⟩

/-- C9: For any number of threads `n`, any iteration count and any
schedule (interleaving), if every thread has completed its
`{ Lock lock (mtx); counter += 1; }` loop, the shared counter equals
exactly `n * iters`: the guard's mutual exclusion loses no update. -/
theorem mutual_exclusion_counter (n iters : Nat) (sched : List (Fin n))
    (h : Conc.allDone (Conc.run sched (Conc.initState n iters)) = true) :
    (Conc.run sched (Conc.initState n iters)).counter = n * iters :=
  Conc.counter_of_allDone
    (Conc.Inv.runPreserved sched (Conc.Inv.init n iters)) h

theorem mutual_exclusion_counter_witness :
    Conc.allDone (Conc.run Conc.sched2 (Conc.initState 2 1)) = true ∧
    (Conc.run Conc.sched2 (Conc.initState 2 1)).counter = 2 * 1 :=
  ⟨by decide, mutual_exclusion_counter 2 1 Conc.sched2 (by decide)⟩

/-- C10: In both the auto-locking constructor and `acquire ()`, the
assignment `_locked = true` comes only after `_mutex.lock ()` has
returned.  Under a lock operation that exits by exception: the
constructor propagates the failure with the partially constructed guard
still unheld and its destructor performing no unlock; `acquire ()`
propagates the failure leaving the guard's state unchanged, so its
destructor performs no unlock either; and in general the flag after
`acquire ()` on an unheld guard is set exactly when the lock call
returned. -/
theorem locked_flag_set_only_after_lock (lockOp : Mutex → Option Mutex)
    (m : Mutex) (s : Mutex × Lock)
    (hm : lockOp m = none) (hs : lockOp s.1 = none)
    (hl : s.2._locked = false) :
    (lockCtorE lockOp m true).1 = none ∧
    (lockCtorE lockOp m true).2.2._locked = false ∧
    lockDtor (lockCtorE lockOp m true).2.1 (lockCtorE lockOp m true).2.2
      = m ∧
    (acquireE lockOp s).1 = none ∧
    (acquireE lockOp s).2 = s ∧
    lockDtor (acquireE lockOp s).2.1 (acquireE lockOp s).2.2 = s.1 ∧
    (∀ t : Mutex × Lock, t.2._locked = false →
      (acquireE lockOp t).2.2._locked = (lockOp t.1).isSome) := by
  refine ⟨?_, ?_, ?_, ?_, ?_, ?_, ?_⟩
  · simp [lockCtorE, hm]
  · simp [lockCtorE, hm]
  · simp [lockCtorE, hm, lockDtor]
  · simp [acquireE, hs]
  · simp [acquireE, hs]
  · simp [acquireE, hs, lockDtor, hl]
  · intro t ht
    cases hlo : lockOp t.1 <;> simp [acquireE, hlo, ht]

theorem locked_flag_set_only_after_lock_witness :
    failingLockOp mkMutex = none ∧
    (mkMutex, ({ _locked := false } : Lock)).2._locked = false ∧
    (lockCtorE failingLockOp mkMutex true).2.2._locked = false ∧
    (acquireE failingLockOp (mkMutex, { _locked := false })).2
      = (mkMutex, { _locked := false }) :=
  ⟨rfl, rfl,
   (locked_flag_set_only_after_lock failingLockOp mkMutex
     (mkMutex, { _locked := false }) rfl rfl rfl).2.1,
   (locked_flag_set_only_after_lock failingLockOp mkMutex
     (mkMutex, { _locked := false }) rfl rfl rfl).2.2.2.2.1⟩

end IlmThread
